import Mathlib

/-!
# The pooled HTTP proxy of `main.go`

A shallow embedding of `main.go`: the package-level state (`backendQueue`,
`requestBytes`), the pool operations `getBackend` and `queueBackend`, the
statistics update `updateStats` and the per-connection loop `handleConnection`.

Everything the program obtains from its environment (what the client sends,
whether a dial succeeds, whether a write or a read on a socket succeeds, what the
origin answers) is an explicit input of the functions below.  Log output is not
modelled.
-/

namespace HttpProxy

/-! ## Data model -/

/-- Backend of `main.go`: an embedded `net.Conn` with a buffered reader and a buffered
writer over it.  A connection is identified by a number; `Reader` and `Writer` name
the connection they wrap. -/
structure Backend where
  Conn : Nat
  Reader : Nat
  Writer : Nat
deriving DecidableEq, Repr

/-- The part of `http.Request` the program looks at: `req.URL.Path`. -/
structure Request where
  Path : String
deriving DecidableEq, Repr

/-- Go `http.Header`, a map from a key to its list of values, as an association list. -/
structure HeaderMap where
  entries : List (String × List String)
deriving DecidableEq, Repr

/-- Go `Header.Set`: the values of `key` are replaced by the single value `value`. -/
def HeaderMap.Set (h : HeaderMap) (key value : String) : HeaderMap :=
  { entries := (key, [value]) :: h.entries.filter (fun kv => kv.1 != key) }

/-- Go `Header.Get`: the first value of `key`, or the empty string. -/
def HeaderMap.Get (h : HeaderMap) (key : String) : String :=
  match h.entries.lookup key with
  | some (v :: _) => v
  | _ => ""

/-- The part of `http.Response` the program looks at or changes. -/
structure Response where
  StatusCode : Nat
  ContentLength : Int
  Close : Bool
  Header : HeaderMap
  Body : String
deriving DecidableEq, Repr

/-- A buffered Go channel: its capacity and the values it holds, oldest first. -/
structure Chan (α : Type) where
  cap : Nat
  buf : List α

/-- The package-level state of `main.go` together with what the program has done to
its environment.

* `backendQueue`, `requestBytes`: the two package variables (`requestLock` makes
  every `updateStats` call one atomic step, which is how it is modelled);
* `queueing`: the Backends handed to a `go queueBackend(be)` whose `select` has
  not fired yet;
* `closed`: the Backends on which `Close` has been called;
* `dials`: the number of `net.Dial` calls made so far; the connection returned by
  a successful dial is numbered by the value of this counter. -/
structure World where
  backendQueue : Chan Backend
  requestBytes : String → Option Int
  queueing : List Backend
  closed : List Backend
  dials : Nat

/-- Go `func init()`: an empty `requestBytes` map and an empty `backendQueue` of
capacity 10. -/
def init : World :=
  { backendQueue := { cap := 10, buf := [] }
    requestBytes := fun _ => none
    queueing := []
    closed := []
    dials := 0 }

/-! ## Stats collector -/

/-- Go `updateStats(req, resp)`: under `requestLock`, store `resp.ContentLength` at
`req.URL.Path` and return what the map then holds at that key (a Go map read gives
the zero value for a missing key). -/
def updateStats (req : Request) (resp : Response) (w : World) : Int × World :=
  let w1 : World :=
    { w with requestBytes := fun p => if p = req.Path then some resp.ContentLength else w.requestBytes p }
  ((w1.requestBytes req.Path).getD 0, w1)

/-- Go `strconv.FormatInt(i, base)` for a base between 2 and 36: a minus sign for a
negative number, then the digits of its magnitude. -/
def FormatInt (i : Int) (base : Nat) : String :=
  if i < 0 then "-" ++ String.mk (Nat.toDigits base i.natAbs)
  else String.mk (Nat.toDigits base i.natAbs)

/-! ## Backend pool -/

/-- The outcome of `net.Dial("tcp", "127.0.0.1:3003")`. -/
inductive DialResult where
  | connected
  | failed (err : String)
deriving DecidableEq, Repr

/-- Go `getBackend()`.  The `select` takes the receive case when `backendQueue`
holds a Backend, and the `time.After` case when it holds none; only then is the
origin dialled, once, and a new Backend built around the connection. -/
def getBackend (dial : DialResult) (w : World) : Except String Backend × World :=
  match w.backendQueue.buf with
  | be :: rest =>
    (.ok be, { w with backendQueue := { w.backendQueue with buf := rest } })
  | [] =>
    match dial with
    | .failed err => (.error err, { w with dials := w.dials + 1 })
    | .connected =>
      (.ok { Conn := w.dials, Reader := w.dials, Writer := w.dials },
        { w with dials := w.dials + 1 })

/-- Go `queueBackend(be)`.  The `select` takes the send case when `backendQueue`
has room, and the `time.After` case when it is full, where the Backend is
closed. -/
def queueBackend (be : Backend) (w : World) : World :=
  if w.backendQueue.buf.length < w.backendQueue.cap then
    { w with backendQueue := { w.backendQueue with buf := w.backendQueue.buf ++ [be] } }
  else
    { w with closed := be :: w.closed }

/-! ## Connection handler -/

/-- What `http.ReadRequest(reader)` gives on the client connection. -/
inductive ReadRequest where
  | eof
  | failed (err : String)
  | request (req : Request)
deriving DecidableEq, Repr

/-- What the environment does while one request is relayed: whether
`req.Write(be.Writer)` returns nil, what `http.ReadResponse(be.Reader, req)` gives
(`none` for an error), and whether `resp.Write(conn)` returns nil. -/
structure Relay where
  reqWritten : Bool
  response : Option Response
  respWritten : Bool
deriving DecidableEq, Repr

/-- What the environment does during one iteration of the loop of `handleConnection`. -/
structure Cycle where
  read : ReadRequest
  dial : DialResult
  relay : Relay
deriving DecidableEq, Repr

/-- The calls a handler makes, in program order. -/
inductive Event where
  | readRequest (r : ReadRequest)
  | getBackend (be : Option Backend)
  | writeBackend (be : Backend) (req : Request) (ok : Bool)
  | flushBackend (be : Backend)
  | readBackend (be : Backend) (ok : Bool)
  | writeClient (resp : Response) (ok : Bool)
  | goQueueBackend (be : Backend)
  | closeClient
deriving DecidableEq, Repr

/-- The response adapter `FixHttp10Response(resp, req)`, which `main.go` calls and
does not define: it rewrites the response in place, so it is a function giving the
response as it stands after the call. -/
abbrev Adapter := Response → Request → Response

/-- The body of the loop of `handleConnection` from `req.Write(be.Writer)` to
`go queueBackend(be)`, for the Backend `be` that `getBackend` returned.  The result
is the new state, the calls made, and whether the loop goes round again (`false`
is the `return` under `if resp.Close`). -/
def relay (fix : Adapter) (req : Request) (be : Backend) (env : Relay) (w : World) :
    World × List Event × Bool :=
  if env.reqWritten then
    match env.response with
    | some resp =>
      let (bytes, w1) := updateStats req resp w
      let resp1 : Response := { resp with Header := resp.Header.Set "X-Bytes" (FormatInt bytes 10) }
      let resp2 := fix resp1 req
      let evs := [Event.writeBackend be req true, .flushBackend be, .readBackend be true,
        .writeClient resp2 env.respWritten]
      if resp2.Close then (w1, evs, false)
      else ({ w1 with queueing := w1.queueing ++ [be] }, evs ++ [.goQueueBackend be], true)
    | none =>
      ({ w with queueing := w.queueing ++ [be] },
        [.writeBackend be req true, .flushBackend be, .readBackend be false, .goQueueBackend be],
        true)
  else
    ({ w with queueing := w.queueing ++ [be] },
      [.writeBackend be req false, .goQueueBackend be], true)

/-- One iteration of the loop of `handleConnection`: read a request, get a Backend,
relay.  The result is the new state, the calls made, and whether the loop goes
round again. -/
def iteration (fix : Adapter) (c : Cycle) (w : World) : World × List Event × Bool :=
  match c.read with
  | .request req =>
    match getBackend c.dial w with
    | (.ok be, w1) =>
      let (w2, evs, again) := relay fix req be c.relay w1
      (w2, [Event.readRequest c.read, .getBackend (some be)] ++ evs, again)
    | (.error _, w1) => (w1, [.readRequest c.read, .getBackend none], false)
  | _ => (w, [.readRequest c.read], false)

/-- Go `handleConnection(conn)`, for a client connection on which the given cycles
happen and then the stream ends (`http.ReadRequest` gives `io.EOF`).  The deferred
`conn.Close()` is the last call.  Goroutines started by `go queueBackend(be)` stay
in `queueing`: running them is a step of the `System` below. -/
def handleConnection (fix : Adapter) : List Cycle → World → World × List Event
  | [], w => (w, [.readRequest .eof, .closeClient])
  | c :: rest, w =>
    match iteration fix c w with
    | (w1, evs, true) =>
      let (w2, evs2) := handleConnection fix rest w1
      (w2, evs ++ evs2)
    | (w1, evs, false) => (w1, evs ++ [.closeClient])

/-- The response `resp` with its `X-Bytes` header set to the decimal rendering of its
own content length: what the theorems below show the handler hands to the adapter. -/
def withXBytes (resp : Response) : Response :=
  { resp with Header := resp.Header.Set "X-Bytes" (FormatInt resp.ContentLength 10) }

/-! ## Sequences of pool operations -/

/-- A call of one of the two pool operations. -/
inductive PoolOp where
  | get (dial : DialResult)
  | queue (be : Backend)
deriving DecidableEq, Repr

/-- The state after one pool operation. -/
def PoolOp.run : PoolOp → World → World
  | .get dial, w => (getBackend dial w).2
  | .queue be, w => queueBackend be w

/-- The state after a sequence of pool operations, run one after the other. -/
def runPool (w : World) (ops : List PoolOp) : World :=
  ops.foldl (fun w op => op.run w) w

/-! ## Interleaved handlers -/

/-- Where a `handleConnection` goroutine stands: at `http.ReadRequest`, at
`getBackend()`, between the return of `getBackend` and the end of the iteration
(the only stretch in which it reads or writes a Backend), or returned. -/
inductive Handler where
  | reading
  | acquiring (req : Request)
  | relaying (req : Request) (be : Backend)
  | returned
deriving DecidableEq, Repr

/-- The whole program: the shared state and the handlers started so far. -/
structure System where
  world : World
  handlers : List Handler

/-- The program when `main` starts accepting. -/
def System.start : System :=
  { world := init, handlers := [] }

/-- One step of one goroutine, with what the environment does in it. -/
inductive Action where
  | accept
  | read (h : Nat) (r : ReadRequest)
  | acquire (h : Nat) (dial : DialResult)
  | relay (h : Nat) (env : Relay)
  | enqueue (g : Nat)
deriving DecidableEq, Repr

/-- The effect of a step.  `accept` is `go handleConnection(conn)` in `main`;
`read`, `acquire` and `relay` move handler `h` through its iteration; `enqueue` lets
the `select` of the `g`-th pending `queueBackend` goroutine fire.  A step that
does not apply to the state (no such goroutine, or not at that point) changes
nothing. -/
def System.step (fix : Adapter) (s : System) : Action → System
  | .accept => { s with handlers := s.handlers ++ [.reading] }
  | .read h r =>
    match s.handlers[h]? with
    | some .reading =>
      match r with
      | .request req => { s with handlers := s.handlers.set h (.acquiring req) }
      | _ => { s with handlers := s.handlers.set h .returned }
    | _ => s
  | .acquire h dial =>
    match s.handlers[h]? with
    | some (.acquiring req) =>
      match getBackend dial s.world with
      | (.ok be, w1) => { world := w1, handlers := s.handlers.set h (.relaying req be) }
      | (.error _, w1) => { world := w1, handlers := s.handlers.set h .returned }
    | _ => s
  | .relay h env =>
    match s.handlers[h]? with
    | some (.relaying req be) =>
      match relay fix req be env s.world with
      | (w1, _, true) => { world := w1, handlers := s.handlers.set h .reading }
      | (w1, _, false) => { world := w1, handlers := s.handlers.set h .returned }
    | _ => s
  | .enqueue g =>
    match s.world.queueing[g]? with
    | some be =>
      { s with world := queueBackend be { s.world with queueing := s.world.queueing.eraseIdx g } }
    | none => s

/-- The state after a sequence of steps. -/
def System.run (fix : Adapter) (s : System) (acts : List Action) : System :=
  acts.foldl (System.step fix) s

/-- The ownership discipline for the Backends in `pool` (idle in the queue or in a
pending `queueBackend` call) and those the handlers `hs` are working on: no Backend
is twice in the pool, none a handler works on is in the pool, no two handlers work
on the same one, and every one of them wraps a connection dialled before, `d` being
the number of dials so far. -/
def Owned (pool : List Backend) (hs : List Handler) (d : Nat) : Prop :=
  pool.Nodup ∧
  (∀ (h : Nat) (req : Request) (be : Backend), hs[h]? = some (Handler.relaying req be) → be ∉ pool) ∧
  (∀ (h1 h2 : Nat) (r1 r2 : Request) (be : Backend), hs[h1]? = some (Handler.relaying r1 be) → hs[h2]? = some (Handler.relaying r2 be) →
    h1 = h2) ∧
  (∀ be ∈ pool, be.Conn < d) ∧
  (∀ (h : Nat) (req : Request) (be : Backend), hs[h]? = some (Handler.relaying req be) → be.Conn < d)

/-- The ownership discipline in a state of the program. -/
def System.Exclusive (s : System) : Prop :=
  Owned (s.world.backendQueue.buf ++ s.world.queueing) s.handlers s.world.dials

/-! ## Theorems: stats collector -/

/-- C1: for every state, request path and response content length (any integer, so
also -1), `updateStats` returns that content length and changes nothing but
`requestBytes`, which becomes the old table with the entry of the path overwritten:
the path now maps to the content length and every other path maps to what it mapped
to before. -/
theorem updateStats_overwrites (w : World) (p : String) (resp : Response) :
    (updateStats ⟨p⟩ resp w).1 = resp.ContentLength ∧
    (updateStats ⟨p⟩ resp w).2.requestBytes
      = Function.update w.requestBytes p (some resp.ContentLength) ∧
    (updateStats ⟨p⟩ resp w).2.requestBytes p = some resp.ContentLength ∧
    (∀ q, q ≠ p → (updateStats ⟨p⟩ resp w).2.requestBytes q = w.requestBytes q) ∧
    (updateStats ⟨p⟩ resp w).2.backendQueue = w.backendQueue ∧
    (updateStats ⟨p⟩ resp w).2.queueing = w.queueing ∧
    (updateStats ⟨p⟩ resp w).2.closed = w.closed ∧
    (updateStats ⟨p⟩ resp w).2.dials = w.dials := by
  refine ⟨by simp [updateStats], ?_, by simp [updateStats], ?_, rfl, rfl, rfl, rfl⟩
  · funext q
    by_cases h : q = p
    · subst h; simp [updateStats]
    · simp [updateStats, Function.update, h]
  · intro q h
    simp [updateStats, h]

/-- C1, at a table that already holds 10 for `/foo` and 7 for `/bar`: an unsized
response (content length -1) for `/foo` is returned as -1 and recorded as -1, and
`/bar` keeps 7. -/
theorem updateStats_overwrites_witness :
    let w : World := { init with
      requestBytes := fun p => if p = "/foo" then some 10 else if p = "/bar" then some 7 else none }
    let resp : Response := ⟨200, -1, true, ⟨[]⟩, ""⟩
    "/bar" ≠ "/foo" ∧
    (updateStats ⟨"/foo"⟩ resp w).1 = -1 ∧
    (updateStats ⟨"/foo"⟩ resp w).2.requestBytes "/foo" = some (-1) ∧
    (updateStats ⟨"/foo"⟩ resp w).2.requestBytes "/bar" = some 7 := by
  intro w resp
  have h := updateStats_overwrites w "/foo" resp
  refine ⟨by decide, h.1, h.2.2.1, ?_⟩
  rw [h.2.2.2.1 "/bar" (by decide)]
  decide

/-! ## Theorems: backend pool -/

/-- Neither pool operation changes the capacity of `backendQueue`, and both keep
the number of idle Backends within it. -/
theorem PoolOp.run_bounded (op : PoolOp) (w : World)
    (h : w.backendQueue.buf.length ≤ w.backendQueue.cap) :
    (op.run w).backendQueue.cap = w.backendQueue.cap ∧
    (op.run w).backendQueue.buf.length ≤ w.backendQueue.cap := by
  cases op with
  | get dial =>
    simp only [PoolOp.run, getBackend]
    split
    · rename_i be rest hbuf
      rw [hbuf] at h
      simp only [List.length_cons] at h
      exact ⟨rfl, by simp only; omega⟩
    · split <;> exact ⟨rfl, h⟩
  | queue be =>
    simp only [PoolOp.run, queueBackend]
    split
    · rename_i hlt
      exact ⟨rfl, by simp only [List.length_append, List.length_singleton]; omega⟩
    · exact ⟨rfl, h⟩

/-- Sequences of pool operations keep the capacity and the bound. -/
theorem runPool_bounded (ops : List PoolOp) (w : World)
    (h : w.backendQueue.buf.length ≤ w.backendQueue.cap) :
    (runPool w ops).backendQueue.cap = w.backendQueue.cap ∧
    (runPool w ops).backendQueue.buf.length ≤ w.backendQueue.cap := by
  induction ops generalizing w with
  | nil => exact ⟨rfl, h⟩
  | cons op rest ih =>
    have h1 := PoolOp.run_bounded op w h
    have h2 := ih (op.run w) (by rw [h1.1]; exact h1.2)
    simp only [runPool, List.foldl_cons] at h2 ⊢
    rw [h1.1] at h2
    exact h2

/-- C3: from the state `init` creates, after every finite sequence of `getBackend`
and `queueBackend` calls `backendQueue` holds at most 10 Backends; and a
`queueBackend` call made when it holds 10 closes its Backend and changes nothing
else, so the queue's contents stay as they were. -/
theorem pool_capacity_bound (ops : List PoolOp) (be : Backend) :
    (runPool init ops).backendQueue.buf.length ≤ 10 ∧
    ((runPool init ops).backendQueue.buf.length = 10 →
      queueBackend be (runPool init ops)
        = { runPool init ops with closed := be :: (runPool init ops).closed } ∧
      (queueBackend be (runPool init ops)).backendQueue.buf = (runPool init ops).backendQueue.buf) := by
  have h := runPool_bounded ops init (by decide)
  refine ⟨h.2, ?_⟩
  intro hfull
  have hq : queueBackend be (runPool init ops)
      = { runPool init ops with closed := be :: (runPool init ops).closed } := by
    unfold queueBackend
    rw [if_neg]
    rw [h.1, hfull]
    decide
  rw [hq]
  exact ⟨rfl, rfl⟩

/-- C3 at a full pool: eleven Backends are dialled and released one after the other;
the first ten fill the queue and the eleventh is closed, the queue staying as it
was. -/
theorem pool_capacity_bound_witness :
    let ops : List PoolOp :=
      List.replicate 11 (.get .connected) ++ (List.range 10).map (fun i => .queue ⟨i, i, i⟩)
    (runPool init ops).backendQueue.buf.length = 10 ∧
    (queueBackend ⟨10, 10, 10⟩ (runPool init ops)).closed = [⟨10, 10, 10⟩] ∧
    (queueBackend ⟨10, 10, 10⟩ (runPool init ops)).backendQueue.buf
      = (runPool init ops).backendQueue.buf := by
  intro ops
  have hlen : (runPool init ops).backendQueue.buf.length = 10 := by decide
  have h := (pool_capacity_bound ops ⟨10, 10, 10⟩).2 hlen
  refine ⟨hlen, ?_, h.2⟩
  rw [h.1]
  decide

/-- C4 as stated fails: two Backends are dialled, Backend 0 is released, and then
Backend 1 is released into the pool, which is not full; the next `getBackend`
returns Backend 0, the older idle one, and not Backend 1. -/
theorem released_is_next_counterexample :
    ¬ (∀ (w : World) (b : Backend) (dial : DialResult),
        w.backendQueue.buf.length < w.backendQueue.cap →
        (getBackend dial (queueBackend b w)).1 = .ok b) := by
  intro h
  have h1 := h (runPool init [.get .connected, .get .connected, .queue ⟨0, 0, 0⟩]) ⟨1, 1, 1⟩
    .connected (by decide)
  have h2 : (getBackend .connected (queueBackend ⟨1, 1, 1⟩
      (runPool init [.get .connected, .get .connected, .queue ⟨0, 0, 0⟩]))).1 = .ok ⟨0, 0, 0⟩ := rfl
  rw [h2] at h1
  simp at h1

/-- Taking the idle Backends queued ahead of `b` one by one leaves `b` at the head. -/
theorem runPool_drains (dial : DialResult) (buf : List Backend) (b : Backend) (w : World)
    (h : w.backendQueue.buf = buf ++ [b]) :
    (runPool w (List.replicate buf.length (.get dial))).backendQueue.buf = [b] ∧
    (runPool w (List.replicate buf.length (.get dial))).dials = w.dials := by
  induction buf generalizing w with
  | nil => exact ⟨h, rfl⟩
  | cons a rest ih =>
    have hstep : (PoolOp.get dial).run w
        = { w with backendQueue := { w.backendQueue with buf := rest ++ [b] } } := by
      simp [PoolOp.run, getBackend, h]
    have h2 := ih ((PoolOp.get dial).run w) (by rw [hstep])
    simp only [List.length_cons, List.replicate_succ, runPool, List.foldl_cons] at h2 ⊢
    rw [hstep] at h2 ⊢
    exact h2

/-- C4, amended: when the pool is not full, `queueBackend(b)` puts `b` at the back of
the queue, and the next `getBackend` returns, without dialling, the Backend at the
head of the queue: `b` itself when the queue held no other idle Backend, otherwise
the oldest idle Backend, with `b` still queued; `b` is returned, still without a
dial, by the `getBackend` that follows as many calls as there were Backends queued
before it. -/
theorem released_is_reused_in_order (w : World) (b : Backend) (dial : DialResult)
    (hroom : w.backendQueue.buf.length < w.backendQueue.cap) :
    (queueBackend b w).backendQueue.buf = w.backendQueue.buf ++ [b] ∧
    (getBackend dial (queueBackend b w)).1 = .ok ((w.backendQueue.buf ++ [b]).headD b) ∧
    (getBackend dial (queueBackend b w)).2.backendQueue.buf = (w.backendQueue.buf ++ [b]).tail ∧
    (getBackend dial (queueBackend b w)).2.dials = w.dials ∧
    (w.backendQueue.buf = [] → (getBackend dial (queueBackend b w)).1 = .ok b) ∧
    (∀ a rest, w.backendQueue.buf = a :: rest →
      (getBackend dial (queueBackend b w)).1 = .ok a ∧
      b ∈ (getBackend dial (queueBackend b w)).2.backendQueue.buf) ∧
    (getBackend dial (runPool (queueBackend b w)
      (List.replicate w.backendQueue.buf.length (.get dial)))).1 = .ok b ∧
    (getBackend dial (runPool (queueBackend b w)
      (List.replicate w.backendQueue.buf.length (.get dial)))).2.dials = w.dials := by
  have hq : queueBackend b w
      = { w with backendQueue := { w.backendQueue with buf := w.backendQueue.buf ++ [b] } } := by
    simp [queueBackend, hroom]
  have hd := runPool_drains dial w.backendQueue.buf b (queueBackend b w) (by rw [hq])
  have hlast : ∀ v : World, v.backendQueue.buf = [b] →
      (getBackend dial v).1 = .ok b ∧ (getBackend dial v).2.dials = v.dials := by
    intro v hv
    simp [getBackend, hv]
  have hl := hlast _ hd.1
  rw [hd.2] at hl
  refine ⟨by rw [hq], ?_, ?_, ?_, ?_, ?_, hl.1, ?_⟩
  · rw [hq]
    cases hb : w.backendQueue.buf <;> simp [getBackend, hb]
  · rw [hq]
    cases hb : w.backendQueue.buf <;> simp [getBackend, hb]
  · rw [hq]
    cases hb : w.backendQueue.buf <;> simp [getBackend, hb]
  · intro hb
    rw [hq]
    simp [getBackend, hb]
  · intro a rest hb
    rw [hq]
    simp [getBackend, hb]
  · rw [hl.2, hq]

/-- C4, amended, at the pool of the counterexample: Backend 0 is idle when Backend 1
is released; the next `getBackend` returns Backend 0 and the one after it returns
Backend 1, neither with a dial. -/
theorem released_is_reused_in_order_witness :
    let w := runPool init [.get .connected, .get .connected, .queue ⟨0, 0, 0⟩]
    w.backendQueue.buf.length < w.backendQueue.cap ∧
    (getBackend .connected (queueBackend ⟨1, 1, 1⟩ w)).1 = .ok ⟨0, 0, 0⟩ ∧
    (getBackend .connected (runPool (queueBackend ⟨1, 1, 1⟩ w) [.get .connected])).1 = .ok ⟨1, 1, 1⟩ ∧
    (getBackend .connected (runPool (queueBackend ⟨1, 1, 1⟩ w) [.get .connected])).2.dials = 2 := by
  intro w
  have h := released_is_reused_in_order w ⟨1, 1, 1⟩ .connected (by decide)
  exact ⟨by decide, h.2.1, h.2.2.2.2.2.2.1, h.2.2.2.2.2.2.2⟩

/-- C7: `getBackend` returns an error exactly when the queue holds no Backend and the
dial fails.  With a Backend in the queue it returns the oldest one and only removes
it from the queue (no dial is counted).  With an empty queue it dials exactly once,
leaves the queue empty and changes nothing else; a successful dial gives a new
Backend whose connection, reader and writer are the dialled connection, a failed
one gives the dial's error. -/
theorem getBackend_result (dial : DialResult) (w : World) :
    ((∃ err, (getBackend dial w).1 = .error err) ↔
      (w.backendQueue.buf = [] ∧ ∃ err, dial = .failed err)) ∧
    (∀ be rest, w.backendQueue.buf = be :: rest →
      getBackend dial w = (.ok be, { w with backendQueue := { w.backendQueue with buf := rest } }) ∧
      (getBackend dial w).2.dials = w.dials) ∧
    (w.backendQueue.buf = [] →
      (getBackend dial w).2 = { w with dials := w.dials + 1 } ∧
      (getBackend dial w).2.backendQueue = w.backendQueue ∧
      (dial = .connected →
        (getBackend dial w).1 = .ok { Conn := w.dials, Reader := w.dials, Writer := w.dials }) ∧
      (∀ err, dial = .failed err → (getBackend dial w).1 = .error err)) ∧
    (getBackend dial w).2.backendQueue.cap = w.backendQueue.cap ∧
    (getBackend dial w).2.backendQueue.buf = w.backendQueue.buf.tail ∧
    (getBackend dial w).2.requestBytes = w.requestBytes ∧
    (getBackend dial w).2.queueing = w.queueing ∧
    (getBackend dial w).2.closed = w.closed := by
  cases hb : w.backendQueue.buf with
  | nil =>
    cases dial with
    | connected =>
      refine ⟨⟨?_, ?_⟩, ?_, ?_, ?_, ?_, ?_, ?_, ?_⟩ <;> simp [getBackend, hb]
    | failed e =>
      refine ⟨⟨?_, ?_⟩, ?_, ?_, ?_, ?_, ?_, ?_, ?_⟩ <;> simp [getBackend, hb]
  | cons be rest =>
    refine ⟨⟨?_, ?_⟩, ?_, ?_, ?_, ?_, ?_, ?_, ?_⟩ <;> simp [getBackend, hb]

/-- C7 at three states: an empty pool with the origin down (an error, one dial), an
empty pool with the origin up (a new Backend on connection 0, one dial), and a pool
holding Backend 0 (that Backend, no dial, the queue left empty). -/
theorem getBackend_result_witness :
    let idle := runPool init [.get .connected, .queue ⟨0, 0, 0⟩]
    ((getBackend (.failed "connection refused") init).1 = .error "connection refused" ∧
      (getBackend (.failed "connection refused") init).2.dials = 1) ∧
    ((getBackend .connected init).1 = .ok ⟨0, 0, 0⟩ ∧ (getBackend .connected init).2.dials = 1) ∧
    ((getBackend (.failed "connection refused") idle).1 = .ok ⟨0, 0, 0⟩ ∧
      (getBackend (.failed "connection refused") idle).2.dials = 1 ∧
      (getBackend (.failed "connection refused") idle).2.backendQueue.buf = []) := by
  intro idle
  have h0 := (getBackend_result (.failed "connection refused") init).2.2.1 rfl
  have h1 := (getBackend_result .connected init).2.2.1 rfl
  have h2 := (getBackend_result (.failed "connection refused") idle).2.1 ⟨0, 0, 0⟩ [] rfl
  refine ⟨⟨h0.2.2.2 _ rfl, by rw [h0.1]; rfl⟩, ⟨h1.2.2.1 rfl, by rw [h1.1]; rfl⟩, ?_, ?_, ?_⟩
  · rw [h2.1]
  · rw [h2.2]; rfl
  · rw [h2.1]

/-! ## Theorems: one iteration of the handler -/

/-- Reading the header that `Set` has just written gives the value written. -/
theorem HeaderMap.Get_Set (h : HeaderMap) (key value : String) :
    (h.Set key value).Get key = value := by
  simp [HeaderMap.Set, HeaderMap.Get, List.lookup]

/-- Unfolding `handleConnection` at an iteration after which the loop goes round again. -/
theorem handleConnection_again (fix : Adapter) (c : Cycle) (rest : List Cycle) (w w1 : World)
    (evs : List Event) (h : iteration fix c w = (w1, evs, true)) :
    handleConnection fix (c :: rest) w
      = ((handleConnection fix rest w1).1, evs ++ (handleConnection fix rest w1).2) := by
  simp [handleConnection, h]

/-- Unfolding `handleConnection` at an iteration that returns. -/
theorem handleConnection_return (fix : Adapter) (c : Cycle) (rest : List Cycle) (w w1 : World)
    (evs : List Event) (h : iteration fix c w = (w1, evs, false)) :
    handleConnection fix (c :: rest) w = (w1, evs ++ [.closeClient]) := by
  simp [handleConnection, h]

/-- The first call of an iteration is `http.ReadRequest`. -/
theorem iteration_starts_reading (fix : Adapter) (c : Cycle) (w : World) :
    ∃ tail, (iteration fix c w).2.1 = Event.readRequest c.read :: tail := by
  unfold iteration
  split
  · split
    · exact ⟨_, rfl⟩
    · exact ⟨_, rfl⟩
  · exact ⟨_, rfl⟩

/-- The first call of `handleConnection` is always `http.ReadRequest`. -/
theorem handleConnection_starts_reading (fix : Adapter) (cs : List Cycle) (w : World) :
    ∃ r tail, (handleConnection fix cs w).2 = Event.readRequest r :: tail := by
  cases cs with
  | nil => exact ⟨_, _, rfl⟩
  | cons c rest =>
    obtain ⟨tail, ht⟩ := iteration_starts_reading fix c w
    rcases hi : iteration fix c w with ⟨w1, evs, again⟩
    rw [hi] at ht
    simp only at ht
    cases again with
    | true =>
      rw [handleConnection_again fix c rest w w1 evs hi, ht]
      exact ⟨_, _, rfl⟩
    | false =>
      rw [handleConnection_return fix c rest w w1 evs hi, ht]
      exact ⟨_, _, rfl⟩

/-- The relay when the request is written and a response is read. -/
theorem relay_response (fix : Adapter) (req : Request) (be : Backend) (env : Relay)
    (w : World) (resp : Response)
    (hwritten : env.reqWritten = true) (hresp : env.response = some resp) :
    relay fix req be env w =
      if (fix (withXBytes resp) req).Close = true then
        ((updateStats req resp w).2,
          [.writeBackend be req true, .flushBackend be, .readBackend be true,
            .writeClient (fix (withXBytes resp) req) env.respWritten], false)
      else
        ({ (updateStats req resp w).2 with queueing := w.queueing ++ [be] },
          [.writeBackend be req true, .flushBackend be, .readBackend be true,
            .writeClient (fix (withXBytes resp) req) env.respWritten, .goQueueBackend be], true) := by
  simp [relay, hwritten, hresp, updateStats, withXBytes]

/-- The relay when writing the request fails, or reading the response fails. -/
theorem relay_failure (fix : Adapter) (req : Request) (be : Backend) (env : Relay) (w : World)
    (h : env.reqWritten = false ∨ env.response = none) :
    relay fix req be env w =
      ({ w with queueing := w.queueing ++ [be] },
        (if env.reqWritten = true then
          [Event.writeBackend be req true, .flushBackend be, .readBackend be false]
        else [Event.writeBackend be req false]) ++ [.goQueueBackend be], true) := by
  rcases h with h | h
  · simp [relay, h]
  · by_cases hw : env.reqWritten = true <;> simp [relay, h, hw]

/-- An iteration in which a request is read and `getBackend` returns a Backend. -/
theorem iteration_relay (fix : Adapter) (c : Cycle) (w w1 : World) (req : Request)
    (be : Backend) (hread : c.read = .request req)
    (hget : getBackend c.dial w = (.ok be, w1)) :
    iteration fix c w =
      ((relay fix req be c.relay w1).1,
        [Event.readRequest (.request req), .getBackend (some be)] ++ (relay fix req be c.relay w1).2.1,
        (relay fix req be c.relay w1).2.2) := by
  simp [iteration, hread, hget]

/-- C2: in every iteration in which the request is written to the Backend and a
response is read, exactly one response is written to the client: the adapter's
result on the response read with `X-Bytes` set to the decimal rendering of that
response's own content length, whatever `requestBytes` held before, and with the
status code as read.  When the adapter keeps the `X-Bytes` header and the status
code, the response written carries that `X-Bytes` value and that status code. -/
theorem iteration_sets_xbytes (fix : Adapter) (c : Cycle) (w : World) (req : Request)
    (be : Backend) (resp : Response)
    (hread : c.read = .request req)
    (hget : (getBackend c.dial w).1 = .ok be)
    (hwritten : c.relay.reqWritten = true)
    (hresp : c.relay.response = some resp) :
    Event.writeClient (fix (withXBytes resp) req) c.relay.respWritten ∈ (iteration fix c w).2.1 ∧
    (∀ r ok, Event.writeClient r ok ∈ (iteration fix c w).2.1 → r = fix (withXBytes resp) req) ∧
    (withXBytes resp).Header.Get "X-Bytes" = FormatInt resp.ContentLength 10 ∧
    (withXBytes resp).StatusCode = resp.StatusCode ∧
    ((∀ r q, (fix r q).Header.Get "X-Bytes" = r.Header.Get "X-Bytes" ∧
        (fix r q).StatusCode = r.StatusCode) →
      (fix (withXBytes resp) req).Header.Get "X-Bytes" = FormatInt resp.ContentLength 10 ∧
      (fix (withXBytes resp) req).StatusCode = resp.StatusCode) := by
  rcases hg : getBackend c.dial w with ⟨r, w1⟩
  rw [hg] at hget
  simp only at hget
  subst hget
  have hX : (withXBytes resp).Header.Get "X-Bytes" = FormatInt resp.ContentLength 10 :=
    HeaderMap.Get_Set _ _ _
  rw [iteration_relay fix c w w1 req be hread hg, relay_response fix req be c.relay w1 resp hwritten hresp]
  refine ⟨?_, ?_, hX, rfl, ?_⟩
  · split <;> simp
  · intro r ok
    split <;> simp <;> intro h _ <;> exact h
  · intro hfix
    exact ⟨(hfix (withXBytes resp) req).1.trans hX, (hfix (withXBytes resp) req).2⟩

/-- C2 at the two scenarios of the specification, with an adapter that leaves the
response as it is.  After a first response of size 10 for `/foo` (so that
`requestBytes` holds 10 for `/foo`), a second response of size 20 for `/foo` is
written with `X-Bytes: 20`; a `200` response with content length 5 and body
`hello` is written with `X-Bytes: 5` and status 200. -/
theorem iteration_sets_xbytes_witness :
    let fix : Adapter := fun r _ => r
    let first : Cycle := ⟨.request ⟨"/foo"⟩, .connected, ⟨true, some ⟨200, 10, false, ⟨[]⟩, "0123456789"⟩, true⟩⟩
    let second : Cycle := ⟨.request ⟨"/foo"⟩, .connected, ⟨true, some ⟨200, 20, false, ⟨[]⟩, "01234567890123456789"⟩, true⟩⟩
    let hello : Cycle := ⟨.request ⟨"/foo"⟩, .connected, ⟨true, some ⟨200, 5, false, ⟨[]⟩, "hello"⟩, true⟩⟩
    let w1 := (iteration fix first init).1
    (w1.requestBytes "/foo" = some 10 ∧
      (fix (withXBytes ⟨200, 20, false, ⟨[]⟩, "01234567890123456789"⟩) ⟨"/foo"⟩).Header.Get "X-Bytes" = "20" ∧
      Event.writeClient ⟨200, 20, false, ⟨[("X-Bytes", ["20"])]⟩, "01234567890123456789"⟩ true
        ∈ (iteration fix second w1).2.1) ∧
    ((fix (withXBytes ⟨200, 5, false, ⟨[]⟩, "hello"⟩) ⟨"/foo"⟩).Header.Get "X-Bytes" = "5" ∧
      Event.writeClient ⟨200, 5, false, ⟨[("X-Bytes", ["5"])]⟩, "hello"⟩ true
        ∈ (iteration fix hello init).2.1) := by
  intro fix first second hello w1
  have h2 := iteration_sets_xbytes fix second w1 ⟨"/foo"⟩ ⟨1, 1, 1⟩
    ⟨200, 20, false, ⟨[]⟩, "01234567890123456789"⟩ rfl rfl rfl rfl
  have h5 := iteration_sets_xbytes fix hello init ⟨"/foo"⟩ ⟨0, 0, 0⟩
    ⟨200, 5, false, ⟨[]⟩, "hello"⟩ rfl rfl rfl rfl
  refine ⟨⟨by decide, ?_, ?_⟩, ?_, ?_⟩
  · exact (h2.2.2.2.2 (fun _ _ => ⟨rfl, rfl⟩)).1.trans (by decide)
  · exact h2.1
  · exact (h5.2.2.2.2 (fun _ _ => ⟨rfl, rfl⟩)).1.trans (by decide)
  · exact h5.1

/-- C5 (the code at a failing write): a client sends a request for `/foo`, the pool is
empty, the dial succeeds and gives Backend 0, and `req.Write(be.Writer)` fails.  The
iteration then calls `go queueBackend` on that Backend, which is still open; when
that goroutine runs the Backend is in `backendQueue`, and the next `getBackend`
hands it out for reuse. -/
theorem write_failure_requeues (fix : Adapter) :
    let c : Cycle := ⟨.request ⟨"/foo"⟩, .connected, ⟨false, none, false⟩⟩
    let be : Backend := ⟨0, 0, 0⟩
    (iteration fix c init).2.1 =
      [.readRequest (.request ⟨"/foo"⟩), .getBackend (some be), .writeBackend be ⟨"/foo"⟩ false,
        .goQueueBackend be] ∧
    (iteration fix c init).1.queueing = [be] ∧
    (iteration fix c init).1.closed = [] ∧
    (System.run fix System.start
      [.accept, .read 0 c.read, .acquire 0 c.dial, .relay 0 c.relay, .enqueue 0]).world.backendQueue.buf
      = [be] ∧
    (getBackend .connected (System.run fix System.start
      [.accept, .read 0 c.read, .acquire 0 c.dial, .relay 0 c.relay, .enqueue 0]).world).1 = .ok be :=
  ⟨rfl, rfl, rfl, rfl, rfl⟩

/-- C6 (the code at a failing read): a client sends a request for `/foo`, the pool is
empty, the dial succeeds and gives Backend 0, the request is written and
`http.ReadResponse` fails.  The iteration leaves `requestBytes` as it was and goes
on to the next request, but it calls `go queueBackend` on that Backend, which is
still open; when that goroutine runs the Backend is in `backendQueue`, and the next
`getBackend` hands it out for reuse. -/
theorem read_failure_requeues (fix : Adapter) :
    let c : Cycle := ⟨.request ⟨"/foo"⟩, .connected, ⟨true, none, false⟩⟩
    let be : Backend := ⟨0, 0, 0⟩
    (iteration fix c init).2.1 =
      [.readRequest (.request ⟨"/foo"⟩), .getBackend (some be), .writeBackend be ⟨"/foo"⟩ true,
        .flushBackend be, .readBackend be false, .goQueueBackend be] ∧
    (iteration fix c init).1.queueing = [be] ∧
    (iteration fix c init).1.closed = [] ∧
    (iteration fix c init).1.requestBytes = init.requestBytes ∧
    (iteration fix c init).2.2 = true ∧
    (System.run fix System.start
      [.accept, .read 0 c.read, .acquire 0 c.dial, .relay 0 c.relay, .enqueue 0]).world.backendQueue.buf
      = [be] ∧
    (getBackend .connected (System.run fix System.start
      [.accept, .read 0 c.read, .acquire 0 c.dial, .relay 0 c.relay, .enqueue 0]).world).1 = .ok be :=
  ⟨rfl, rfl, rfl, rfl, rfl, rfl, rfl⟩

/-- C8: in every iteration in which a response is read, when the response as the
handler tests it (after the adapter has run) has `Close` set, `handleConnection`
ends there whatever the client would send next: the response is written to the
client, the last call is the close of the client connection, and the state is the
one `getBackend` left with only `requestBytes` updated, so the Backend is in no
`queueBackend` call, not in the queue and not closed.  When `Close` is not set, the
Backend is handed to `go queueBackend` and the handler continues with the rest of the
connection, whose first call is `http.ReadRequest`. -/
theorem close_terminates (fix : Adapter) (c : Cycle) (rest : List Cycle) (w : World)
    (req : Request) (be : Backend) (resp : Response)
    (hread : c.read = .request req)
    (hget : (getBackend c.dial w).1 = .ok be)
    (hwritten : c.relay.reqWritten = true)
    (hresp : c.relay.response = some resp) :
    ((fix (withXBytes resp) req).Close = true →
      handleConnection fix (c :: rest) w =
        ((updateStats req resp (getBackend c.dial w).2).2,
          [.readRequest (.request req), .getBackend (some be), .writeBackend be req true,
            .flushBackend be, .readBackend be true,
            .writeClient (fix (withXBytes resp) req) c.relay.respWritten, .closeClient]) ∧
      (handleConnection fix (c :: rest) w).1.queueing = w.queueing ∧
      (handleConnection fix (c :: rest) w).1.closed = w.closed ∧
      (handleConnection fix (c :: rest) w).1.backendQueue = (getBackend c.dial w).2.backendQueue) ∧
    ((fix (withXBytes resp) req).Close = false →
      ∃ w1 : World,
        w1 = { (updateStats req resp (getBackend c.dial w).2).2 with queueing := w.queueing ++ [be] } ∧
        handleConnection fix (c :: rest) w =
          ((handleConnection fix rest w1).1,
            [.readRequest (.request req), .getBackend (some be), .writeBackend be req true,
              .flushBackend be, .readBackend be true,
              .writeClient (fix (withXBytes resp) req) c.relay.respWritten, .goQueueBackend be]
            ++ (handleConnection fix rest w1).2) ∧
        ∃ r tail, (handleConnection fix rest w1).2 = Event.readRequest r :: tail) := by
  rcases hg : getBackend c.dial w with ⟨r, wg⟩
  rw [hg] at hget
  simp only at hget
  subst hget
  have hq : wg.queueing = w.queueing ∧ wg.closed = w.closed := by
    unfold getBackend at hg
    split at hg
    · simp only [Prod.mk.injEq] at hg
      rw [← hg.2]
      exact ⟨rfl, rfl⟩
    · split at hg
      · simp at hg
      · simp only [Prod.mk.injEq] at hg
        rw [← hg.2]
        exact ⟨rfl, rfl⟩
  have hi := iteration_relay fix c w wg req be hread hg
  rw [relay_response fix req be c.relay wg resp hwritten hresp] at hi
  constructor
  · intro hc
    rw [if_pos hc] at hi
    rw [handleConnection_return fix c rest w _ _ hi]
    exact ⟨rfl, hq.1, hq.2, rfl⟩
  · intro hc
    rw [if_neg (by simp [hc])] at hi
    refine ⟨_, rfl, ?_, handleConnection_starts_reading fix rest _⟩
    rw [handleConnection_again fix c rest w _ _ hi, hq.1]
    rfl

/-- C8 at a connection on which two requests are sent: when the first response says
`Connection: close` the handler closes the client connection after writing it (the
second request is never read, no `queueBackend` call is started and nothing is
closed); when it does not, the Backend is handed to `go queueBackend` and the
second request is read. -/
theorem close_terminates_witness :
    let fix : Adapter := fun r _ => r
    let closing : Cycle := ⟨.request ⟨"/a"⟩, .connected, ⟨true, some ⟨200, 2, true, ⟨[]⟩, "ok"⟩, true⟩⟩
    let keeping : Cycle := ⟨.request ⟨"/a"⟩, .connected, ⟨true, some ⟨200, 2, false, ⟨[]⟩, "ok"⟩, true⟩⟩
    let be : Backend := ⟨0, 0, 0⟩
    ((handleConnection fix [closing, keeping] init).2 =
        [.readRequest (.request ⟨"/a"⟩), .getBackend (some be), .writeBackend be ⟨"/a"⟩ true,
          .flushBackend be, .readBackend be true,
          .writeClient ⟨200, 2, true, ⟨[("X-Bytes", ["2"])]⟩, "ok"⟩ true, .closeClient] ∧
      (handleConnection fix [closing, keeping] init).1.queueing = [] ∧
      (handleConnection fix [closing, keeping] init).1.closed = [] ∧
      (handleConnection fix [closing, keeping] init).1.backendQueue.buf = []) ∧
    ((handleConnection fix [keeping, closing] init).2.take 8 =
        [.readRequest (.request ⟨"/a"⟩), .getBackend (some be), .writeBackend be ⟨"/a"⟩ true,
          .flushBackend be, .readBackend be true,
          .writeClient ⟨200, 2, false, ⟨[("X-Bytes", ["2"])]⟩, "ok"⟩ true, .goQueueBackend be,
          .readRequest (.request ⟨"/a"⟩)]) := by
  intro fix closing keeping be
  have h1 := (close_terminates fix closing [keeping] init ⟨"/a"⟩ be
    ⟨200, 2, true, ⟨[]⟩, "ok"⟩ rfl rfl rfl rfl).1 rfl
  obtain ⟨w1, hw1, h2, _⟩ := (close_terminates fix keeping [closing] init ⟨"/a"⟩ be
    ⟨200, 2, false, ⟨[]⟩, "ok"⟩ rfl rfl rfl rfl).2 rfl
  refine ⟨⟨?_, h1.2.1, h1.2.2.1, ?_⟩, ?_⟩
  · rw [h1.1]; decide
  · rw [h1.2.2.2]; rfl
  · rw [h2, hw1]; rfl

/-- C9: in every iteration in which a request is read and `getBackend` returns an
error, `handleConnection` ends there whatever the client would send next: its calls
are the read of the request, the one `getBackend` call and the close of the client
connection (nothing is written to the client), the queue was empty and stays so, and
the state is unchanged except that one dial has been counted. -/
theorem acquire_error_terminates (fix : Adapter) (c : Cycle) (rest : List Cycle) (w : World)
    (req : Request) (err : String)
    (hread : c.read = .request req)
    (hget : (getBackend c.dial w).1 = .error err) :
    handleConnection fix (c :: rest) w =
      ({ w with dials := w.dials + 1 },
        [.readRequest (.request req), .getBackend none, .closeClient]) ∧
    (∀ r ok, Event.writeClient r ok ∉ (handleConnection fix (c :: rest) w).2) ∧
    (handleConnection fix (c :: rest) w).1.requestBytes = w.requestBytes ∧
    (handleConnection fix (c :: rest) w).1.backendQueue = w.backendQueue ∧
    (handleConnection fix (c :: rest) w).1.queueing = w.queueing ∧
    (handleConnection fix (c :: rest) w).1.closed = w.closed ∧
    (handleConnection fix (c :: rest) w).1.dials = w.dials + 1 ∧
    w.backendQueue.buf = [] := by
  have hg : getBackend c.dial w = (.error err, { w with dials := w.dials + 1 })
      ∧ w.backendQueue.buf = [] := by
    unfold getBackend at hget ⊢
    split at hget
    · simp at hget
    · rename_i hbuf
      rw [hbuf]
      split at hget
      · simp only [Except.error.injEq] at hget
        subst hget
        exact ⟨rfl, rfl⟩
      · simp at hget
  have hi : iteration fix c w =
      ({ w with dials := w.dials + 1 }, [.readRequest (.request req), .getBackend none], false) := by
    simp [iteration, hread, hg.1]
  have hh := handleConnection_return fix c rest w _ _ hi
  rw [hh]
  refine ⟨rfl, ?_, rfl, rfl, rfl, rfl, rfl, hg.2⟩
  intro r ok
  simp

/-- C9 with the origin down: the pool is empty and the dial is refused, and the
handler closes the client connection having written nothing, with a second request
from the client left unread. -/
theorem acquire_error_terminates_witness :
    let fix : Adapter := fun r _ => r
    let c : Cycle := ⟨.request ⟨"/foo"⟩, .failed "connection refused", ⟨true, none, true⟩⟩
    (getBackend c.dial init).1 = .error "connection refused" ∧
    (handleConnection fix [c, c] init).2 =
      [.readRequest (.request ⟨"/foo"⟩), .getBackend none, .closeClient] ∧
    (handleConnection fix [c, c] init).1.dials = 1 ∧
    (handleConnection fix [c, c] init).1.backendQueue.buf = [] := by
  intro fix c
  have h := acquire_error_terminates fix c [c] init ⟨"/foo"⟩ "connection refused" rfl rfl
  refine ⟨rfl, ?_, h.2.2.2.2.2.2.1, ?_⟩
  · rw [h.1]
  · rw [h.2.2.2.1]; rfl

/-! ## Theorems: ownership of Backends under interleaving -/

/-- Which handler is at a Backend after one handler's state has been replaced. -/
theorem relaying_of_set {hs : List Handler} {h i : Nat} {x y : Handler} {req : Request}
    {be : Backend} (hy : hs[h]? = some y)
    (hi : (hs.set h x)[i]? = some (Handler.relaying req be)) :
    (i = h ∧ x = Handler.relaying req be) ∨ (i ≠ h ∧ hs[i]? = some (Handler.relaying req be)) := by
  rw [List.getElem?_set] at hi
  by_cases e : h = i
  · subst e
    have hlt : h < hs.length := (List.getElem?_eq_some_iff.mp hy).1
    simp only [if_true, hlt, Option.some.injEq] at hi
    exact Or.inl ⟨rfl, hi⟩
  · rw [if_neg e] at hi
    exact Or.inr ⟨fun e2 => e e2.symm, hi⟩

/-- The discipline depends on the pool only through its members. -/
theorem Owned.perm {pool pool2 : List Backend} {hs : List Handler} {d : Nat}
    (hp : pool.Perm pool2) (o : Owned pool hs d) : Owned pool2 hs d := by
  obtain ⟨o1, o2, o3, o4, o5⟩ := o
  refine ⟨hp.nodup_iff.mp o1, ?_, o3, ?_, o5⟩
  · intro h req be hh hmem
    exact o2 h req be hh (hp.mem_iff.mpr hmem)
  · intro be hmem
    exact o4 be (hp.mem_iff.mpr hmem)

/-- Dropping a Backend from the pool (it is closed) keeps the discipline. -/
theorem Owned.drop {pool : List Backend} {hs : List Handler} {d : Nat} {be : Backend}
    (o : Owned (be :: pool) hs d) : Owned pool hs d := by
  obtain ⟨o1, o2, o3, o4, o5⟩ := o
  refine ⟨(List.nodup_cons.mp o1).2, ?_, o3, ?_, o5⟩
  · intro h req b hh hmem
    exact o2 h req b hh (List.mem_cons_of_mem _ hmem)
  · intro b hmem
    exact o4 b (List.mem_cons_of_mem _ hmem)

/-- A further dial keeps the discipline. -/
theorem Owned.dial {pool : List Backend} {hs : List Handler} {d : Nat}
    (o : Owned pool hs d) : Owned pool hs (d + 1) := by
  obtain ⟨o1, o2, o3, o4, o5⟩ := o
  exact ⟨o1, o2, o3, fun be hb => Nat.lt_succ_of_lt (o4 be hb),
    fun h req be hh => Nat.lt_succ_of_lt (o5 h req be hh)⟩

/-- A new handler, which works on no Backend yet, keeps the discipline. -/
theorem Owned.accept {pool : List Backend} {hs : List Handler} {d : Nat}
    (o : Owned pool hs d) : Owned pool (hs ++ [.reading]) d := by
  have key : ∀ (h : Nat) (req : Request) (be : Backend), (hs ++ [Handler.reading])[h]? = some (Handler.relaying req be) →
      hs[h]? = some (Handler.relaying req be) := by
    intro h req be hh
    rw [List.getElem?_append] at hh
    split at hh
    · exact hh
    · rename_i hge
      cases hk : h - hs.length with
      | zero => rw [hk] at hh; simp at hh
      | succ k => rw [hk] at hh; simp at hh
  obtain ⟨o1, o2, o3, o4, o5⟩ := o
  exact ⟨o1, fun h req be hh => o2 h req be (key h req be hh),
    fun h1 h2 r1 r2 be e1 e2 => o3 h1 h2 r1 r2 be (key _ _ _ e1) (key _ _ _ e2), o4,
    fun h req be hh => o5 h req be (key h req be hh)⟩

/-- A handler that moves to a point where it works on no Backend, letting go of the
one it may have had, keeps the discipline. -/
theorem Owned.idle {pool : List Backend} {hs : List Handler} {d h : Nat} {x y : Handler}
    (o : Owned pool hs d) (hy : hs[h]? = some y) (hx : ∀ (req : Request) (be : Backend), x ≠ Handler.relaying req be) :
    Owned pool (hs.set h x) d := by
  have key : ∀ (i : Nat) (req : Request) (be : Backend), (hs.set h x)[i]? = some (Handler.relaying req be) →
      hs[i]? = some (Handler.relaying req be) := by
    intro i req be hi
    rcases relaying_of_set hy hi with ⟨_, e⟩ | ⟨_, e⟩
    · exact absurd e (hx req be)
    · exact e
  obtain ⟨o1, o2, o3, o4, o5⟩ := o
  exact ⟨o1, fun i req be hh => o2 i req be (key i req be hh),
    fun h1 h2 r1 r2 be e1 e2 => o3 h1 h2 r1 r2 be (key _ _ _ e1) (key _ _ _ e2), o4,
    fun i req be hh => o5 i req be (key i req be hh)⟩

/-- A handler at `getBackend` that receives the Backend at the head of the pool keeps
the discipline: the Backend leaves the pool as the handler starts on it. -/
theorem Owned.take {pool : List Backend} {hs : List Handler} {d h : Nat} {req : Request}
    {be : Backend} (o : Owned (be :: pool) hs d) (hy : hs[h]? = some (.acquiring req)) :
    Owned pool (hs.set h (.relaying req be)) d := by
  obtain ⟨o1, o2, o3, o4, o5⟩ := o
  have hnd := List.nodup_cons.mp o1
  refine ⟨hnd.2, ?_, ?_, fun b hb => o4 b (List.mem_cons_of_mem _ hb), ?_⟩
  · intro i r b hi
    rcases relaying_of_set hy hi with ⟨_, e⟩ | ⟨_, e⟩
    · simp only [Handler.relaying.injEq] at e
      rw [← e.2]
      exact hnd.1
    · exact fun hmem => o2 i r b e (List.mem_cons_of_mem _ hmem)
  · intro h1 h2 r1 r2 b e1 e2
    rcases relaying_of_set hy e1 with ⟨i1, x1⟩ | ⟨i1, x1⟩ <;>
      rcases relaying_of_set hy e2 with ⟨i2, x2⟩ | ⟨i2, x2⟩
    · rw [i1, i2]
    · simp only [Handler.relaying.injEq] at x1
      rw [← x1.2] at x2
      exact absurd (List.mem_cons_self be pool) (o2 h2 r2 be x2)
    · simp only [Handler.relaying.injEq] at x2
      rw [← x2.2] at x1
      exact absurd (List.mem_cons_self be pool) (o2 h1 r1 be x1)
    · exact o3 h1 h2 r1 r2 b x1 x2
  · intro i r b hi
    rcases relaying_of_set hy hi with ⟨_, e⟩ | ⟨_, e⟩
    · simp only [Handler.relaying.injEq] at e
      rw [← e.2]
      exact o4 be (List.mem_cons_self be pool)
    · exact o5 i r b e

/-- A handler at `getBackend` that gets a newly dialled Backend keeps the discipline:
the new connection is none of those dialled before. -/
theorem Owned.fresh {pool : List Backend} {hs : List Handler} {d h : Nat} {req : Request}
    (o : Owned pool hs d) (hy : hs[h]? = some (.acquiring req)) :
    Owned pool (hs.set h (.relaying req { Conn := d, Reader := d, Writer := d })) (d + 1) := by
  have hnew : Owned ({ Conn := d, Reader := d, Writer := d } :: pool) hs (d + 1) := by
    obtain ⟨o1, o2, o3, o4, o5⟩ := o
    refine ⟨List.nodup_cons.mpr ⟨fun hmem => Nat.lt_irrefl d (o4 _ hmem), o1⟩, ?_, o3, ?_,
      fun i r b hi => Nat.lt_succ_of_lt (o5 i r b hi)⟩
    · intro i r b hi hmem
      rcases List.mem_cons.mp hmem with e | hm
      · have := o5 i r b hi
        rw [e] at this
        exact Nat.lt_irrefl d this
      · exact o2 i r b hi hm
    · intro b hmem
      rcases List.mem_cons.mp hmem with e | hm
      · rw [e]; exact Nat.lt_succ_self d
      · exact Nat.lt_succ_of_lt (o4 b hm)
  exact hnew.take hy

/-- A handler that hands its Backend to the pool and moves to a point where it works
on no Backend keeps the discipline. -/
theorem Owned.release {pool : List Backend} {hs : List Handler} {d h : Nat} {req : Request}
    {be : Backend} {x : Handler} (o : Owned pool hs d) (hy : hs[h]? = some (Handler.relaying req be))
    (hx : ∀ (r : Request) (b : Backend), x ≠ Handler.relaying r b) : Owned (be :: pool) (hs.set h x) d := by
  obtain ⟨o1, o2, o3, o4, o5⟩ := o
  have key : ∀ (i : Nat) (r : Request) (b : Backend), (hs.set h x)[i]? = some (Handler.relaying r b) →
      i ≠ h ∧ hs[i]? = some (Handler.relaying r b) := by
    intro i r b hi
    rcases relaying_of_set hy hi with ⟨_, e⟩ | e
    · exact absurd e (hx r b)
    · exact e
  refine ⟨List.nodup_cons.mpr ⟨o2 h req be hy, o1⟩, ?_,
    fun h1 h2 r1 r2 b e1 e2 => o3 h1 h2 r1 r2 b (key _ _ _ e1).2 (key _ _ _ e2).2, ?_,
    fun i r b hi => o5 i r b (key i r b hi).2⟩
  · intro i r b hi hmem
    obtain ⟨hne, e⟩ := key i r b hi
    rcases List.mem_cons.mp hmem with eb | hm
    · rw [eb] at e
      exact hne (o3 i h r req be e hy)
    · exact o2 i r b e hm
  · intro b hmem
    rcases List.mem_cons.mp hmem with eb | hm
    · rw [eb]; exact o5 h req be hy
    · exact o4 b hm

/-- A list is its `g`-th element followed by the others, up to order. -/
theorem perm_cons_eraseIdx {l : List Backend} {g : Nat} {be : Backend} (h : l[g]? = some be) :
    l.Perm (be :: l.eraseIdx g) := by
  induction l generalizing g with
  | nil => simp at h
  | cons a rest ih =>
    cases g with
    | zero =>
      simp only [List.getElem?_cons_zero, Option.some.injEq] at h
      rw [h]
      exact List.Perm.refl _
    | succ k =>
      simp only [List.getElem?_cons_succ] at h
      simp only [List.eraseIdx_cons_succ]
      exact ((ih h).cons a).trans (List.Perm.swap be a _)

/-- What `getBackend` does, case by case. -/
theorem getBackend_cases (dial : DialResult) (w : World) :
    (∃ be rest, w.backendQueue.buf = be :: rest ∧
      getBackend dial w = (.ok be, { w with backendQueue := { w.backendQueue with buf := rest } })) ∨
    (w.backendQueue.buf = [] ∧
      getBackend dial w = (.ok { Conn := w.dials, Reader := w.dials, Writer := w.dials },
        { w with dials := w.dials + 1 })) ∨
    (w.backendQueue.buf = [] ∧ ∃ err,
      getBackend dial w = (.error err, { w with dials := w.dials + 1 })) := by
  cases hb : w.backendQueue.buf with
  | nil =>
    cases dial with
    | connected => exact Or.inr (Or.inl ⟨rfl, by simp [getBackend, hb]⟩)
    | failed e => exact Or.inr (Or.inr ⟨rfl, e, by simp [getBackend, hb]⟩)
  | cons be rest => exact Or.inl ⟨be, rest, rfl, by simp [getBackend, hb]⟩

/-- What the relay does to the pool: nothing to the queue or the dial count, and the
Backend is handed to `queueBackend` exactly when the loop goes round again. -/
theorem relay_world (fix : Adapter) (req : Request) (be : Backend) (env : Relay) (w : World) :
    (relay fix req be env w).1.backendQueue = w.backendQueue ∧
    (relay fix req be env w).1.dials = w.dials ∧
    (relay fix req be env w).1.closed = w.closed ∧
    (relay fix req be env w).1.queueing
      = if (relay fix req be env w).2.2 = true then w.queueing ++ [be] else w.queueing := by
  by_cases hw : env.reqWritten = true
  · cases hr : env.response with
    | none =>
      rw [relay_failure fix req be env w (Or.inr hr)]
      exact ⟨rfl, rfl, rfl, rfl⟩
    | some resp =>
      rw [relay_response fix req be env w resp hw hr]
      split <;> exact ⟨rfl, rfl, rfl, rfl⟩
  · rw [relay_failure fix req be env w (Or.inl (by simpa using hw))]
    exact ⟨rfl, rfl, rfl, rfl⟩

/-- The three steps of a handler, taken one after the other from `http.ReadRequest`,
leave the shared state that `iteration` computes. -/
theorem System.steps_iteration (fix : Adapter) (s : System) (h : Nat) (c : Cycle)
    (hh : s.handlers[h]? = some .reading) :
    (((s.step fix (.read h c.read)).step fix (.acquire h c.dial)).step fix
      (.relay h c.relay)).world = (iteration fix c s.world).1 := by
  have hlt : h < s.handlers.length := (List.getElem?_eq_some_iff.mp hh).1
  cases hr : c.read with
  | eof => simp [System.step, iteration, hh, hr, hlt]
  | failed err => simp [System.step, iteration, hh, hr, hlt]
  | request req =>
    rcases getBackend_cases c.dial s.world with ⟨be, rest, _, hg⟩ | ⟨_, hg⟩ | ⟨_, err, hg⟩
    · rcases hrel : relay fix req be c.relay
        { s.world with backendQueue := { s.world.backendQueue with buf := rest } }
        with ⟨w2, evs, again⟩
      cases again <;> simp [System.step, iteration, hh, hr, hlt, hg, hrel]
    · rcases hrel : relay fix req
        { Conn := s.world.dials, Reader := s.world.dials, Writer := s.world.dials } c.relay
        { s.world with dials := s.world.dials + 1 } with ⟨w2, evs, again⟩
      cases again <;> simp [System.step, iteration, hh, hr, hlt, hg, hrel]
    · simp [System.step, iteration, hh, hr, hlt, hg]

/-- Every step keeps the ownership discipline. -/
theorem System.step_exclusive (fix : Adapter) (s : System) (a : Action) (o : s.Exclusive) :
    (s.step fix a).Exclusive := by
  unfold System.Exclusive at o ⊢
  cases a with
  | accept => exact o.accept
  | read h r =>
    simp only [System.step]
    split
    · rename_i hy
      split
      · exact o.idle hy (fun _ _ => by simp)
      · exact o.idle hy (fun _ _ => by simp)
    · exact o
  | acquire h dial =>
    simp only [System.step]
    split
    · rename_i req hy
      rcases getBackend_cases dial s.world with ⟨be, rest, hb, hg⟩ | ⟨hb, hg⟩ | ⟨hb, err, hg⟩
      · rw [hg]
        rw [hb] at o
        exact Owned.take o hy
      · rw [hg]
        exact Owned.fresh o hy
      · rw [hg]
        exact (o.idle hy (fun _ _ => by simp)).dial
    · exact o
  | relay h env =>
    simp only [System.step]
    split
    · rename_i req be hy
      have hw := relay_world fix req be env s.world
      rcases hr : relay fix req be env s.world with ⟨w1, evs, again⟩
      rw [hr] at hw
      simp only at hw
      cases again with
      | true =>
        simp only [if_true] at hw
        simp only [hw.1, hw.2.1, hw.2.2.2]
        refine Owned.perm ?_ (Owned.release o hy (x := .reading) (fun _ _ => by simp))
        rw [← List.append_assoc]
        exact (List.perm_append_singleton be _).symm
      | false =>
        simp only [Bool.false_eq_true, if_false] at hw
        simp only [hw.1, hw.2.1, hw.2.2.2]
        exact o.idle hy (fun _ _ => by simp)
    · exact o
  | enqueue g =>
    simp only [System.step]
    split
    · rename_i be hg
      have hp : (s.world.backendQueue.buf ++ s.world.queueing).Perm
          (be :: (s.world.backendQueue.buf ++ s.world.queueing.eraseIdx g)) :=
        ((perm_cons_eraseIdx hg).append_left _).trans List.perm_middle
      have o2 := Owned.perm hp o
      unfold queueBackend
      split
      · refine Owned.perm ?_ o2
        simp only [List.append_assoc, List.singleton_append]
        exact List.perm_middle.symm
      · exact o2.drop
    · exact o

/-- Every sequence of steps keeps the ownership discipline. -/
theorem System.run_exclusive (fix : Adapter) (acts : List Action) (s : System)
    (o : s.Exclusive) : (s.run fix acts).Exclusive := by
  induction acts generalizing s with
  | nil => exact o
  | cons a rest ih => exact ih _ (System.step_exclusive fix s a o)

/-- C10: in every state reached from the start of the program by any interleaving of
handler steps and `queueBackend` goroutines, no Backend is twice in `backendQueue`,
nor twice among the queue and the pending `queueBackend` calls; a Backend that a
handler is reading or writing is neither in the queue nor in a pending
`queueBackend` call; and no two handlers are reading or writing the same
Backend. -/
theorem backends_exclusively_owned (fix : Adapter) (acts : List Action) :
    (System.start.run fix acts).world.backendQueue.buf.Nodup ∧
    ((System.start.run fix acts).world.backendQueue.buf
      ++ (System.start.run fix acts).world.queueing).Nodup ∧
    (∀ (h : Nat) (req : Request) (be : Backend), (System.start.run fix acts).handlers[h]? = some (Handler.relaying req be) →
      be ∉ (System.start.run fix acts).world.backendQueue.buf ∧
      be ∉ (System.start.run fix acts).world.queueing) ∧
    (∀ (h1 h2 : Nat) (r1 r2 : Request) (be : Backend), (System.start.run fix acts).handlers[h1]? = some (Handler.relaying r1 be) →
      (System.start.run fix acts).handlers[h2]? = some (Handler.relaying r2 be) → h1 = h2) := by
  have hstart : System.start.Exclusive := by
    refine ⟨List.nodup_nil, ?_, ?_, ?_, ?_⟩ <;> simp [System.start, init]
  obtain ⟨o1, o2, o3, _, _⟩ := System.run_exclusive fix acts System.start hstart
  refine ⟨(List.nodup_append.mp o1).1, o1, ?_, o3⟩
  intro h req be hh
  have := o2 h req be hh
  simp only [List.mem_append, not_or] at this
  exact this

/-- C10 at an interleaving of two handlers: both are accepted and read a request,
both dial (Backends 0 and 1), handler 0 finishes its relay and its `queueBackend`
goroutine puts Backend 0 in the queue, handler 0 reads again and takes Backend 0
from the queue while handler 1 is still on Backend 1.  The two handlers are on
different Backends and neither Backend is in the queue or in a pending
`queueBackend` call. -/
theorem backends_exclusively_owned_witness :
    (System.start.run (fun r _ => r)
      [.accept, .accept, .read 0 (.request ⟨"/a"⟩), .read 1 (.request ⟨"/b"⟩),
        .acquire 0 .connected, .acquire 1 .connected,
        .relay 0 ⟨true, some ⟨200, 2, false, ⟨[]⟩, "ok"⟩, true⟩, .enqueue 0,
        .read 0 (.request ⟨"/a"⟩), .acquire 0 .connected]).handlers
      = [.relaying ⟨"/a"⟩ ⟨0, 0, 0⟩, .relaying ⟨"/b"⟩ ⟨1, 1, 1⟩] ∧
    (⟨0, 0, 0⟩ : Backend) ∉ (System.start.run (fun r _ => r)
      [.accept, .accept, .read 0 (.request ⟨"/a"⟩), .read 1 (.request ⟨"/b"⟩),
        .acquire 0 .connected, .acquire 1 .connected,
        .relay 0 ⟨true, some ⟨200, 2, false, ⟨[]⟩, "ok"⟩, true⟩, .enqueue 0,
        .read 0 (.request ⟨"/a"⟩), .acquire 0 .connected]).world.backendQueue.buf ∧
    (⟨0, 0, 0⟩ : Backend) ∉ (System.start.run (fun r _ => r)
      [.accept, .accept, .read 0 (.request ⟨"/a"⟩), .read 1 (.request ⟨"/b"⟩),
        .acquire 0 .connected, .acquire 1 .connected,
        .relay 0 ⟨true, some ⟨200, 2, false, ⟨[]⟩, "ok"⟩, true⟩, .enqueue 0,
        .read 0 (.request ⟨"/a"⟩), .acquire 0 .connected]).world.queueing :=
  ⟨by decide, (backends_exclusively_owned (fun r _ => r) _).2.2.1 0 ⟨"/a"⟩ ⟨0, 0, 0⟩ (by decide)⟩

end HttpProxy
